import Mathlib

/-!
Verification of the history, sanitization, classification, cleanup and HTTP
error-handling logic of the media-downloader service in `src/main.py`.

Strings from the Python code are modelled as `List Char`; machine times and
sizes as `Int`; Python's negative-index slicing is modelled explicitly.
The external extraction tool (yt-dlp) is modelled as an oracle outcome, and
the filesystem as explicit data, so every handler becomes a pure function.
-/

namespace Downloader

/-! ## Python slicing primitives

Python `l[:k]` and `l[k:]` for an arbitrary integer `k` (negative indices
count from the end, clamped at the bounds). -/

/-- Model of Python `l[:k]` for an `Int` bound `k`. -/
def pySliceTo {α : Type} (l : List α) (k : Int) : List α :=
  if 0 ≤ k then l.take k.toNat else l.take (l.length - (-k).toNat)

/-- Model of Python `l[k:]` for an `Int` bound `k`. -/
def pySliceFrom {α : Type} (l : List α) (k : Int) : List α :=
  if 0 ≤ k then l.drop k.toNat else l.drop (l.length - (-k).toNat)

/-! ## Configuration (`main.py` lines 66-70, default environment) -/

/-- Value of `DOWNLOAD_FOLDER` under the default environment (`"downloads"`). -/
def DOWNLOAD_FOLDER : List Char := "downloads".toList

/-- Basename of the history file, `".history.json"`. -/
def HISTORY_BASENAME : List Char := ".history.json".toList

/-- Value of `MAX_HISTORY_ITEMS` under the default environment. -/
def MAX_HISTORY_ITEMS : Nat := 100

/-- Value of `MAX_FILE_AGE_DAYS` under the default environment. -/
def MAX_FILE_AGE_DAYS : Int := 1

/-! ## History data model

A history entry is the dict written by `add_to_history`: the caller-supplied
payload fields plus the `timestamp` and `id` fields added at append time.
`size_mb` is stored here as the raw byte count reported by the extractor;
the float division/rounding into megabytes performed by Python is a
floating-point operation and is not modelled (no claim depends on it). -/

structure HistoryData where
  url : List Char
  title : List Char
  filename : List Char
  platform : String
  quality : List Char
  format : List Char
  size_mb : Int
  duration : Int
  deriving DecidableEq, Repr

structure HistoryEntry where
  data : HistoryData
  timestamp : List Char
  id : List Char
  deriving DecidableEq, Repr

/-- State of the history file on disk, as observed by `load_history`. -/
inductive HistoryFileState where
  | absent
  | unreadable
  | invalidJson
  | valid (entries : List HistoryEntry)
  deriving DecidableEq, Repr

/-- Model of `load_history` (`main.py` lines 80-88): returns the parsed list
when the file exists and parses, and `[]` when the file is absent, cannot be
read, or holds invalid JSON (the `except` branch only logs). -/
def load_history : HistoryFileState → List HistoryEntry
  | .valid entries => entries
  | _ => []

/-- Model of `save_history` (`main.py` lines 90-98): the persisted value is
`history[-MAX_HISTORY_ITEMS:]`. -/
def save_history (history : List HistoryEntry) : List HistoryEntry :=
  pySliceFrom history (-(MAX_HISTORY_ITEMS : Int))

/-- Model of `add_to_history` (`main.py` lines 100-108): append the payload
extended with `timestamp` and `id` fields, then persist via `save_history`.
`ts` and `idv` stand for the wall-clock timestamp string and the derived
8-hex-digit id. -/
def add_to_history (ts idv : List Char) (data : HistoryData)
    (history : List HistoryEntry) : List HistoryEntry :=
  save_history (history ++ [HistoryEntry.mk data ts idv])

/-- Model of the `GET /history` handler (`main.py` lines 264-272):
`load_history()[-limit:][::-1]`. -/
def get_history (file : HistoryFileState) (limit : Int) : List HistoryEntry :=
  (pySliceFrom (load_history file) (-limit)).reverse

/-- History count reported by `GET /stats` (`main.py` line 251). -/
def stats_history_count (file : HistoryFileState) : Nat :=
  (load_history file).length

/-! ## Filesystem model for the download directory -/

/-- One directory entry of the download folder: its basename, its
modification time (seconds), and whether it is a regular file. -/
structure FsFile where
  name : List Char
  mtime : Int
  isRegularFile : Bool
  deriving DecidableEq, Repr

/-- Deletion condition of `clean_old_files` (`main.py` lines 134-138): a
regular file whose name does not start with a dot and whose mtime is older
than the cutoff. (`Path.glob("*")` already skips dot-files; the code checks
`startswith('.')` as well, so the two agree on what is examined.) -/
def shouldDelete (cutoff : Int) (f : FsFile) : Bool :=
  f.isRegularFile && !(f.name.head? == some '.') && decide (f.mtime < cutoff)

/-- Model of `clean_old_files` (`main.py` lines 127-144): the directory
contents after the sweep, with `cutoff = now - MAX_FILE_AGE_DAYS days`. -/
def clean_old_files (cutoff : Int) (dir : List FsFile) : List FsFile :=
  dir.filter (fun f => !(shouldDelete cutoff f))

/-- Cutoff computed by `clean_old_files` from the current time in seconds. -/
def cleanupCutoff (now : Int) : Int := now - MAX_FILE_AGE_DAYS * 86400

/-! ## Path handling for the media endpoints (`main.py` lines 446-482) -/

/-- Model of POSIX `os.path.basename`: the part after the last slash. -/
def pathBasename (p : List Char) : List Char :=
  (p.reverse.takeWhile (fun c => c != '/')).reverse

/-- Model of POSIX `os.path.join` on two components: an absolute second
component replaces the first; otherwise a separator is inserted unless the
first is empty or already ends in one. -/
def pathJoin2 (a b : List Char) : List Char :=
  if b.head? = some '/' then b
  else if a = [] ∨ a.getLast? = some '/' then a ++ b
  else a ++ '/' :: b

/-- Value of `HISTORY_FILE` (`main.py` line 67) under the default
environment. -/
def HISTORY_FILE : List Char := pathJoin2 DOWNLOAD_FOLDER HISTORY_BASENAME

/-- The path both media endpoints operate on:
`os.path.join(DOWNLOAD_FOLDER, os.path.basename(filename))`. -/
def media_path (filename : List Char) : List Char :=
  pathJoin2 DOWNLOAD_FOLDER (pathBasename filename)

/-- The filesystem as observed through `os.path.exists` / regular-file
status. -/
structure Fs where
  pathExists : List Char → Bool
  pathIsFile : List Char → Bool

inductive MediaResult where
  | served (path : List Char)
  | deleted (path : List Char)
  | notFound
  | serverError
  deriving DecidableEq, Repr

/-- Model of `GET /media/{filename}` (`main.py` lines 446-465): a missing
path gives 404; an existing path that is not a regular file (the directory
itself via an empty basename, `.` or `..`) makes `FileResponse` fail when
the body is sent, surfacing as a server error; a regular file is served. -/
def serve_media (fs : Fs) (filename : List Char) : MediaResult :=
  if fs.pathExists (media_path filename) then
    (if fs.pathIsFile (media_path filename) then .served (media_path filename)
     else .serverError)
  else .notFound

/-- Model of `DELETE /media/{filename}` (`main.py` lines 467-482): a missing
path gives 404; `os.remove` on a non-regular path raises, caught as a 500;
a regular file is removed. -/
def delete_media (fs : Fs) (filename : List Char) : MediaResult :=
  if fs.pathExists (media_path filename) then
    (if fs.pathIsFile (media_path filename) then .deleted (media_path filename)
     else .serverError)
  else .notFound

/-- A path that denotes an entry properly inside the download directory:
one slash-free component under `DOWNLOAD_FOLDER` that is not empty, `.` or
`..`. -/
def insideDownload (p : List Char) : Prop :=
  ∃ c, p = DOWNLOAD_FOLDER ++ '/' :: c ∧ '/' ∉ c ∧ c ≠ [] ∧ c ≠ ['.'] ∧ c ≠ ['.', '.']

/-! ## Platform classification (`main.py` lines 170-190) -/

/-- Per-character action of Python `str.lower()`, exact as far as the ASCII
content of the result is concerned. Enumerating all of Unicode in CPython:
`str.lower()` maps `A`-`Z` to `a`-`z`, U+212A (KELVIN SIGN) to `k`, and
U+0130 (LATIN CAPITAL LETTER I WITH DOT ABOVE) to `i` followed by U+0307 —
its only multi-character mapping — and the lowercase form of every other
character is a single non-ASCII character when the character is non-ASCII,
and the character itself when it is ASCII and not a capital letter. The
remaining non-ASCII characters are kept unchanged here: their lowered forms
are non-ASCII single characters, so the ASCII characters of the lowered URL
sit at the same positions with the same values as in CPython, and substring
membership of the table's all-ASCII fragments — hence the classifier — is
extensionally that of the program. -/
def pyLowerChar (c : Char) : List Char :=
  if 'A' ≤ c ∧ c ≤ 'Z' then [Char.ofNat (c.toNat + 32)]
  else if c.toNat = 0x212a then ['k']
  else if c.toNat = 0x130 then ['i', Char.ofNat 0x307]
  else [c]

/-- The `url_lower` value of `get_platform_from_url`: `url.lower()`. -/
def lowered_url (url : List Char) : List Char := url.flatMap pyLowerChar

/-- Model of Python substring membership `frag in s`. -/
def containsSub (frag s : List Char) : Bool := decide (frag <:+: s)

/-- Model of `get_platform_from_url` (`main.py` lines 170-190): the chain of
`elif` substring tests, in source order, defaulting to `"Other"`. -/
def get_platform_from_url (url : List Char) : String :=
  if containsSub "youtube.com".toList (lowered_url url)
      || containsSub "youtu.be".toList (lowered_url url) then "YouTube"
  else if containsSub "tiktok.com".toList (lowered_url url) then "TikTok"
  else if containsSub "instagram.com".toList (lowered_url url) then "Instagram"
  else if containsSub "twitter.com".toList (lowered_url url)
      || containsSub "x.com".toList (lowered_url url) then "Twitter/X"
  else if containsSub "facebook.com".toList (lowered_url url)
      || containsSub "fb.watch".toList (lowered_url url) then "Facebook"
  else if containsSub "vimeo.com".toList (lowered_url url) then "Vimeo"
  else if containsSub "reddit.com".toList (lowered_url url) then "Reddit"
  else if containsSub "twitch.tv".toList (lowered_url url) then "Twitch"
  else "Other"

/-- The fixed fragment table named by the specification, in the spec's
order: each entry is the list of domain fragments and the label. -/
def platformTable : List (List (List Char) × String) :=
  [(["youtube.com".toList, "youtu.be".toList], "YouTube"),
   (["tiktok.com".toList], "TikTok"),
   (["instagram.com".toList], "Instagram"),
   (["twitter.com".toList, "x.com".toList], "Twitter/X"),
   (["facebook.com".toList, "fb.watch".toList], "Facebook"),
   (["vimeo.com".toList], "Vimeo"),
   (["reddit.com".toList], "Reddit"),
   (["twitch.tv".toList], "Twitch")]

/-- Spec-side classifier, following the specification's words: find the
first table entry one of whose fragments occurs in the lowercased URL and
return its label, defaulting to `"Other"`. -/
def classifyByTable (url : List Char) : String :=
  (platformTable.find?
      (fun e => e.1.any (fun frag => containsSub frag (lowered_url url)))).elim
    "Other" (fun e => e.2)

/-- First-match-wins evaluation of a fragment table. -/
def classifyAux (url : List Char) : List (List (List Char) × String) → String
  | [] => "Other"
  | e :: rest =>
    if e.1.any (fun frag => containsSub frag (lowered_url url)) then e.2
    else classifyAux url rest

/-! ## Filename sanitization (`main.py` lines 110-125) -/

/-- One of the characters removed by `re.sub(r'[<>:\"/\\|?*]', '', ...)`. -/
def isReservedChar (c : Char) : Bool :=
  c == '<' || c == '>' || c == ':' || c == '\"' || c == '/' ||
  c == '\\' || c == '|' || c == '?' || c == '*'

/-- One of the characters removed by `re.sub(r'[\x00-\x1f\x7f-\x9f]', '', ...)`. -/
def isControlChar (c : Char) : Bool :=
  decide (c.toNat ≤ 0x1f) || (decide (0x7f ≤ c.toNat) && decide (c.toNat ≤ 0x9f))

/-- A character matched by Python's `\s` on `str`: ASCII whitespace plus the
Unicode whitespace characters (the file separators and `\x85` in this list
are already gone by the time `\s+` runs, having been removed as control
characters, so only the true spaces matter there). -/
def isSpaceChar (c : Char) : Bool :=
  let n := c.toNat
  (decide (0x9 ≤ n) && decide (n ≤ 0xd)) ||
  (decide (0x1c ≤ n) && decide (n ≤ 0x1f)) ||
  n == 0x20 || n == 0x85 || n == 0xa0 || n == 0x1680 ||
  (decide (0x2000 ≤ n) && decide (n ≤ 0x200a)) ||
  n == 0x2028 || n == 0x2029 || n == 0x202f || n == 0x205f || n == 0x3000

/-- Model of `re.sub(r'X+', sep, s)` for a character class `X`: each maximal
run of characters satisfying `p` becomes the single character `sep`. The
flag records whether the previous character was inside a run. -/
def collapseAux (p : Char → Bool) (sep : Char) : Bool → List Char → List Char
  | _, [] => []
  | inRun, c :: cs =>
    if p c then
      (if inRun then collapseAux p sep true cs
       else sep :: collapseAux p sep true cs)
    else c :: collapseAux p sep false cs

def collapseRuns (p : Char → Bool) (sep : Char) (l : List Char) : List Char :=
  collapseAux p sep false l

/-- Model of Python `s.strip(chars)`: drop matching characters from both
ends. -/
def pyStrip (strip : Char → Bool) (l : List Char) : List Char :=
  ((l.dropWhile strip).reverse.dropWhile strip).reverse

def isDotOrUnderscore (c : Char) : Bool := c == '.' || c == '_'

/-- The sanitization pipeline of `sanitize_filename` before the length
check (`main.py` lines 113-118): remove reserved then control characters,
collapse whitespace runs to `_`, dot runs to `.`, underscore runs to `_`,
then strip leading/trailing dots and underscores. -/
def sanitize_scrubbed (filename : List Char) : List Char :=
  pyStrip isDotOrUnderscore
    (collapseRuns (fun c => c == '_') '_'
      (collapseRuns (fun c => c == '.') '.'
        (collapseRuns isSpaceChar '_'
          ((filename.filter (fun c => !(isReservedChar c))).filter
            (fun c => !(isControlChar c))))))

/-- Index of the last occurrence of `a` in `l`, as in Python `rfind`. -/
def rfindIdx (a : Char) (l : List Char) : Option Nat :=
  match l.reverse.findIdx? (fun c => c == a) with
  | none => none
  | some j => some (l.length - 1 - j)

/-- Model of `os.path.splitext` on a separator-free name: split at the last
dot, unless every character before that dot is itself a dot (leading dots
are not an extension). -/
def splitext (s : List Char) : List Char × List Char :=
  match rfindIdx '.' s with
  | none => (s, [])
  | some i =>
    if (s.take i).any (fun c => c != '.') then (s.take i, s.drop i) else (s, [])

/-- Length limiting of `sanitize_filename` (`main.py` lines 121-123): when
the name is longer than `max_length`, keep `name[:max_length - len(ext)]`
plus the extension — a Python slice, so a negative bound counts from the
end. -/
def truncatePy (max_length : Nat) (f : List Char) : List Char :=
  if max_length < f.length then
    pySliceTo (splitext f).1 ((max_length : Int) - ((splitext f).2.length : Int))
      ++ (splitext f).2
  else f

/-- Model of `sanitize_filename` (`main.py` lines 110-125): scrub, limit the
length, and fall back to `"download"` when everything vanished. -/
def sanitize_filename (filename : List Char) (max_length : Nat) : List Char :=
  if truncatePy max_length (sanitize_scrubbed filename) = [] then "download".toList
  else truncatePy max_length (sanitize_scrubbed filename)

/-- The statement that `l` contains no two adjacent occurrences of `a`
(used to express that separator runs are collapsed). -/
def noTwoAdjacent (a : Char) (l : List Char) : Prop :=
  l.Chain' (fun x y => x ≠ a ∨ y ≠ a)

/-! ## The download handler (`main.py` lines 285-444)

The yt-dlp interaction inside the `try` block is modelled as an oracle
outcome: either the extracted metadata, a `DownloadError`, or any other
exception, each carrying its message. Everything the handler computes from
the metadata is modelled from the source. -/

/-- Metadata dict fields the handler reads from `extract_info`, plus the
`prepare_filename` result. `none` models a missing key / `None` value. -/
structure MediaInfo where
  title : Option (List Char)
  uploader : Option (List Char)
  preparedFilename : List Char
  duration : Option Int
  thumbnail : Option (List Char)
  view_count : Option Int
  height : Option Int
  width : Option Int
  fps : Option Int
  filesize : Option Int
  filesize_approx : Option Int
  deriving DecidableEq, Repr

/-- Outcome of the `try` block's yt-dlp calls. -/
inductive ExtractOutcome where
  | ok (info : MediaInfo)
  | downloadError (msg : List Char)
  | otherError (msg : List Char)
  deriving DecidableEq, Repr

/-- Python `a or b` for an optional string (both `None` and `""` are
falsy). -/
def orStr (a : Option (List Char)) (b : List Char) : List Char :=
  match a with
  | some s => if s = [] then b else s
  | none => b

/-- Python `a or b` for an optional integer (both `None` and `0` are
falsy). -/
def orInt (a : Option Int) (b : Int) : Int :=
  match a with
  | some v => if v = 0 then b else v
  | none => b

/-- Model of Python `s.rsplit('.', 1)[0]`. -/
def rsplitDotHead (s : List Char) : List Char :=
  match rfindIdx '.' s with
  | none => s
  | some i => s.take i

/-- URL validation of the handler (`main.py` line 295):
`url.startswith(("http://", "https://"))`. -/
def validUrlScheme (url : List Char) : Bool :=
  "http://".toList.isPrefixOf url || "https://".toList.isPrefixOf url

/-- The filename the handler derives (`main.py` lines 362-367): for audio,
the prepared name with its extension replaced by `.mp3`. -/
def finalFilename (format_type : List Char) (info : MediaInfo) : List Char :=
  if format_type = "audio".toList then
    rsplitDotHead info.preparedFilename ++ ".mp3".toList
  else info.preparedFilename

/-- The `quality_info` string (`main.py` lines 379-391). -/
def quality_info_of (format_type : List Char) (info : MediaInfo) : List Char :=
  if format_type = "video".toList then
    let h := orInt info.height 0
    let w := orInt info.width 0
    let fps := orInt info.fps 0
    if h ≠ 0 ∧ w ≠ 0 then
      (toString w).toList ++ 'x' :: (toString h).toList ++
        (if fps ≠ 0 then ' ' :: '@' :: ((toString fps).toList ++ "fps".toList) else [])
    else "Unknown".toList
  else "MP3 Audio (192kbps)".toList

/-- The byte count `info.get('filesize') or info.get('filesize_approx') or 0`
(`main.py` line 394). -/
def filesizeOf (info : MediaInfo) : Int :=
  orInt info.filesize (orInt info.filesize_approx 0)

/-- The history payload built on success (`main.py` lines 405-414);
`size_mb` holds the raw byte count, see `HistoryData`. -/
def downloadEntryData (url format_type : List Char) (info : MediaInfo) : HistoryData :=
  { url := url
    title := pySliceTo (orStr info.title "Unknown".toList) 150
    filename := sanitize_filename (pathBasename (finalFilename format_type info)) 100
    platform := get_platform_from_url url
    quality := quality_info_of format_type info
    format := format_type
    size_mb := filesizeOf info
    duration := orInt info.duration 0 }

/-- The success JSON of `POST /download` (`main.py` lines 417-433);
`filesize` holds the raw byte count, see `HistoryData`. -/
structure DownloadSuccess where
  filename : List Char
  download_url : List Char
  title : List Char
  uploader : List Char
  duration : Int
  thumbnail : List Char
  quality : List Char
  format_type : List Char
  filesize : Int
  platform : String
  views : Int
  deriving DecidableEq, Repr

inductive DownloadResult where
  | ok (resp : DownloadSuccess)
  | httpError (status : Nat) (detail : List Char)
  deriving DecidableEq, Repr

/-- Model of the `POST /download` handler (`main.py` lines 285-444). The
`quality` form field only shapes the yt-dlp format string, i.e. the
behaviour of the extraction oracle, so it does not appear on the right-hand
side; `ts`/`idv` are the timestamp and id `add_to_history` generates. The
handler returns the HTTP result and the persisted history. -/
def download_media (url quality format_type ts idv : List Char)
    (extract : ExtractOutcome) (history : List HistoryEntry) :
    DownloadResult × List HistoryEntry :=
  if !(validUrlScheme url) then
    (.httpError 400 "URL must start with http:// or https://".toList, history)
  else
    match extract with
    | .downloadError msg =>
      (.httpError 400 ("Download failed: ".toList ++ msg), history)
    | .otherError msg =>
      (.httpError 500 ("An unexpected error occurred: ".toList ++ msg), history)
    | .ok info =>
      let basename := sanitize_filename (pathBasename (finalFilename format_type info)) 100
      (.ok { filename := basename
             download_url := "/media/".toList ++ basename
             title := pySliceTo (orStr info.title "Unknown".toList) 150
             uploader := pySliceTo (orStr info.uploader "Unknown".toList) 100
             duration := orInt info.duration 0
             thumbnail := orStr info.thumbnail []
             quality := quality_info_of format_type info
             format_type := format_type
             filesize := filesizeOf info
             platform := get_platform_from_url url
             views := orInt info.view_count 0 },
       add_to_history ts idv (downloadEntryData url format_type info) history)

/-! ## Server state for the history-clearing endpoint -/

structure ServerState where
  historyFile : HistoryFileState
  files : List FsFile

/-- Model of the `DELETE /history` handler (`main.py` lines 274-283): calls
`save_history([])`, touching nothing else. -/
def clear_history (st : ServerState) : ServerState :=
  { st with historyFile := HistoryFileState.valid (save_history []) }

/-- Concrete sample entry used in concrete evaluations. -/
def sampleData : HistoryData :=
  { url := "https://youtube.com/watch".toList, title := "t".toList,
    filename := "f.mp4".toList, platform := "YouTube",
    quality := "1280x720".toList, format := "video".toList,
    size_mb := 1048576, duration := 10 }

def sampleEntry : HistoryEntry :=
  { data := sampleData, timestamp := "2026-10-12T00:00:00".toList,
    id := "deadbeef".toList }

/-! ## Basic lemmas about the slicing model -/

theorem save_history_eq_drop (h : List HistoryEntry) :
    save_history h = h.drop (h.length - MAX_HISTORY_ITEMS) := by
  simp [save_history, pySliceFrom, MAX_HISTORY_ITEMS]

/-! ## Claim C1: the persisted history is capped at the most recent entries -/

/-- C1. Appending any entry through `add_to_history` persists a history of at
most `MAX_HISTORY_ITEMS` entries; the persisted list is a suffix of the
appended list (so only the oldest entries are dropped) of length
`min (previous length + 1) MAX_HISTORY_ITEMS` (so exactly the most recent
entries are kept). -/
theorem add_to_history_capped (ts idv : List Char) (data : HistoryData)
    (history : List HistoryEntry) :
    (add_to_history ts idv data history).length ≤ MAX_HISTORY_ITEMS ∧
    add_to_history ts idv data history <:+ history ++ [HistoryEntry.mk data ts idv] ∧
    (add_to_history ts idv data history).length
      = min (history.length + 1) MAX_HISTORY_ITEMS := by
  unfold add_to_history
  rw [save_history_eq_drop]
  refine ⟨?_, List.drop_suffix _ _, ?_⟩ <;>
    simp only [List.length_drop, List.length_append, List.length_singleton] <;> omega

/-! ## Claim C8: history operations only append, drop or read entries -/

/-- C8. History entries are immutable: `save_history` persists a suffix of
its input (every persisted entry is an unchanged input entry), and
`add_to_history` persists a suffix of the input history with the new entry
appended; below the cap it is a pure append. -/
theorem history_append_only (history : List HistoryEntry) (ts idv : List Char)
    (data : HistoryData) :
    save_history history <:+ history ∧
    (∀ e ∈ save_history history, e ∈ history) ∧
    add_to_history ts idv data history <:+ history ++ [HistoryEntry.mk data ts idv] ∧
    (history.length < MAX_HISTORY_ITEMS →
      add_to_history ts idv data history = history ++ [HistoryEntry.mk data ts idv]) := by
  refine ⟨?_, ?_, ?_, ?_⟩
  · rw [save_history_eq_drop]; exact List.drop_suffix _ _
  · intro e he
    rw [save_history_eq_drop] at he
    exact List.drop_subset _ _ he
  · unfold add_to_history
    rw [save_history_eq_drop]
    exact List.drop_suffix _ _
  · intro hlt
    unfold add_to_history
    rw [save_history_eq_drop]
    have : (history ++ [HistoryEntry.mk data ts idv]).length - MAX_HISTORY_ITEMS = 0 := by
      simp only [List.length_append, List.length_singleton]; omega
    rw [this, List.drop_zero]

/-- Witness for C8 at the empty history. -/
theorem history_append_only_witness :
    ([] : List HistoryEntry).length < MAX_HISTORY_ITEMS ∧
    add_to_history sampleEntry.timestamp sampleEntry.id sampleData []
      = [] ++ [HistoryEntry.mk sampleData sampleEntry.timestamp sampleEntry.id] :=
  ⟨by decide,
   (history_append_only [] sampleEntry.timestamp sampleEntry.id sampleData).2.2.2 (by decide)⟩

/-! ## Claim C10: load_history is total over all file states -/

/-- C10. When the history file is absent, unreadable or holds invalid JSON,
`load_history` returns the empty list, so `GET /history` returns no entries
and the `GET /stats` history count is zero. -/
theorem load_history_total (limit : Int) :
    load_history .absent = [] ∧ load_history .unreadable = [] ∧
    load_history .invalidJson = [] ∧
    get_history .absent limit = [] ∧ get_history .unreadable limit = [] ∧
    get_history .invalidJson limit = [] ∧
    stats_history_count .absent = 0 ∧ stats_history_count .unreadable = 0 ∧
    stats_history_count .invalidJson = 0 := by
  refine ⟨rfl, rfl, rfl, ?_, ?_, ?_, rfl, rfl, rfl⟩ <;>
    · simp only [get_history, load_history, pySliceFrom]
      split <;> simp

/-! ## Claim C7: clearing the history empties it and leaves files alone -/

/-- C7. After `DELETE /history`, loading the history yields zero entries,
whatever was stored before, and the download directory is untouched. -/
theorem clear_history_correct (st : ServerState) :
    load_history (clear_history st).historyFile = [] ∧
    (clear_history st).files = st.files :=
  ⟨rfl, rfl⟩

/-! ## Claim C6: history endpoint returns the most recent entries first -/

/-- C6 (amended). For every stored history and every limit of at least 1,
`GET /history?limit=N` returns the most recent `N` entries, newest first.
(At `limit = 0` the code returns the whole history reversed, not zero
entries; see the counterexample.) -/
theorem get_history_recent (history : List HistoryEntry) (limit : Int)
    (h : 1 ≤ limit) :
    get_history (.valid history) limit = history.reverse.take limit.toNat := by
  have hneg : ¬ (0 ≤ -limit) := by omega
  simp only [get_history, load_history, pySliceFrom, hneg, if_false, neg_neg]
  exact List.take_reverse.symm

/-- Witness for C6 (amended) at a one-entry history and limit 2. -/
theorem get_history_recent_witness :
    (1 : Int) ≤ 2 ∧
    get_history (.valid [sampleEntry]) 2 = [sampleEntry].reverse.take (2 : Int).toNat :=
  ⟨by decide, get_history_recent [sampleEntry] 2 (by decide)⟩

/-- Counterexample to C6 as stated: at `limit = 0` the handler returns the
whole (reversed) history, not the most recent zero entries. -/
theorem get_history_limit_zero_cex :
    get_history (.valid [sampleEntry]) 0 = [sampleEntry] ∧
    get_history (.valid [sampleEntry]) 0 ≠ [sampleEntry].reverse.take (0 : Int).toNat := by
  constructor
  · rfl
  · intro hcontra
    have h1 : get_history (.valid [sampleEntry]) 0 = [sampleEntry] := rfl
    rw [h1] at hcontra
    simp at hcontra

/-! ## Claim C9: the media endpoints cannot escape the download directory -/

theorem slash_not_mem_pathBasename (filename : List Char) :
    '/' ∉ pathBasename filename := by
  intro hmem
  rw [pathBasename, List.mem_reverse] at hmem
  have := List.mem_takeWhile_imp hmem
  simp at this

theorem media_path_eq (filename : List Char) :
    media_path filename = DOWNLOAD_FOLDER ++ '/' :: pathBasename filename := by
  rw [media_path, pathJoin2]
  rw [if_neg, if_neg]
  · intro h
    rcases h with h | h
    · exact absurd h (by decide)
    · exact absurd h (by decide)
  · intro h
    exact slash_not_mem_pathBasename filename (List.mem_of_mem_head? (by simp [h]))

/-- C9. Both media endpoints operate on
`join(DOWNLOAD_FOLDER, basename(filename))`, whose basename component never
contains a separator; under the filesystem facts that `downloads/`,
`downloads/.` and `downloads/..` are not regular files, any successfully
served or deleted path lies properly inside the download directory, and a
nonexistent path yields 404 on both endpoints. -/
theorem media_endpoints_path_safe (fs : Fs) (filename : List Char)
    (hdot : fs.pathIsFile (DOWNLOAD_FOLDER ++ ('/' :: ['.'])) = false)
    (hdotdot : fs.pathIsFile (DOWNLOAD_FOLDER ++ ('/' :: ['.', '.'])) = false)
    (hbare : fs.pathIsFile (DOWNLOAD_FOLDER ++ ('/' :: ([] : List Char))) = false) :
    ('/' ∉ pathBasename filename) ∧
    media_path filename = DOWNLOAD_FOLDER ++ '/' :: pathBasename filename ∧
    (∀ p, serve_media fs filename = .served p → insideDownload p) ∧
    (∀ p, delete_media fs filename = .deleted p → insideDownload p) ∧
    (fs.pathExists (media_path filename) = false →
      serve_media fs filename = .notFound ∧ delete_media fs filename = .notFound) := by
  have hb := slash_not_mem_pathBasename filename
  have hpath := media_path_eq filename
  have hinside : fs.pathIsFile (media_path filename) = true →
      insideDownload (media_path filename) := by
    intro hfile
    refine ⟨pathBasename filename, hpath, hb, ?_, ?_, ?_⟩
    · intro hcontra
      rw [hpath, hcontra] at hfile
      rw [hbare] at hfile
      cases hfile
    · intro hcontra
      rw [hpath, hcontra] at hfile
      rw [hdot] at hfile
      cases hfile
    · intro hcontra
      rw [hpath, hcontra] at hfile
      rw [hdotdot] at hfile
      cases hfile
  refine ⟨hb, hpath, ?_, ?_, ?_⟩
  · intro p hp
    unfold serve_media at hp
    split at hp
    · split at hp
      · cases hp
        exact hinside (by assumption)
      · cases hp
    · cases hp
  · intro p hp
    unfold delete_media at hp
    split at hp
    · split at hp
      · cases hp
        exact hinside (by assumption)
      · cases hp
    · cases hp
  · intro hne
    constructor
    · unfold serve_media
      rw [if_neg]
      simp [hne]
    · unfold delete_media
      rw [if_neg]
      simp [hne]

/-- Witness for C9 on an empty filesystem and a traversal-shaped input. -/
theorem media_endpoints_path_safe_witness :
    ('/' ∉ pathBasename "../x".toList) ∧
    media_path "../x".toList = DOWNLOAD_FOLDER ++ '/' :: pathBasename "../x".toList ∧
    (∀ p, serve_media ⟨fun _ => false, fun _ => false⟩ "../x".toList = .served p →
      insideDownload p) ∧
    (∀ p, delete_media ⟨fun _ => false, fun _ => false⟩ "../x".toList = .deleted p →
      insideDownload p) ∧
    ((Fs.mk (fun _ => false) (fun _ => false)).pathExists (media_path "../x".toList) = false →
      serve_media ⟨fun _ => false, fun _ => false⟩ "../x".toList = .notFound ∧
      delete_media ⟨fun _ => false, fun _ => false⟩ "../x".toList = .notFound) :=
  media_endpoints_path_safe ⟨fun _ => false, fun _ => false⟩ "../x".toList rfl rfl rfl

/-! ## Claim C3: the platform classifier is the first-match table lookup -/

theorem find_table_eq_aux (url : List Char) (table : List (List (List Char) × String)) :
    (table.find?
        (fun e => e.1.any (fun frag => containsSub frag (lowered_url url)))).elim
      "Other" (fun e => e.2) = classifyAux url table := by
  induction table with
  | nil => rfl
  | cons e rest ih =>
    rw [List.find?_cons]
    cases h : e.1.any (fun frag => containsSub frag (lowered_url url)) with
    | true => simp [classifyAux, h]
    | false => simpa [classifyAux, h] using ih

/-- C3. The classifier equals the first-match lookup over the fixed fragment
table, in the fixed spec order, case-insensitively (both sides lowercase the
URL first); in particular it is deterministic, a known fragment occurring in
the URL yields the corresponding label, and no fragment yields `"Other"`. -/
theorem get_platform_from_url_matches_table (url : List Char) :
    get_platform_from_url url = classifyByTable url := by
  unfold classifyByTable
  rw [find_table_eq_aux]
  simp only [classifyAux, platformTable, List.any_cons, List.any_nil, Bool.or_false]
  rfl

/-- The Unicode case mappings reaching into ASCII are honoured: a KELVIN
SIGN in place of `k` still classifies as TikTok (as in CPython), while
U+0130 lowers to `i` plus a combining dot, which interrupts the fragment,
so it does not (CPython agrees on both). -/
theorem get_platform_from_url_unicode_lowering :
    get_platform_from_url "https://tiktoK.com/x".toList = "TikTok" ∧
    get_platform_from_url "https://tİktok.com/x".toList = "Other" := by
  constructor <;> decide

/-! ## Claim C4: the sweep deletes exactly the old, non-hidden regular files -/

/-- C4. A directory entry survives `clean_old_files` exactly when it is not
(a regular file, not dot-prefixed, strictly older than the cutoff); in
particular every entry at or newer than the cutoff survives, and the history
file (a dot-file) always survives. The model never rewrites surviving
entries, matching the code, which only ever calls `unlink`. -/
theorem clean_old_files_correct (cutoff : Int) (dir : List FsFile) (f : FsFile) :
    (f ∈ clean_old_files cutoff dir ↔
      f ∈ dir ∧ ¬(f.isRegularFile = true ∧ f.name.head? ≠ some '.' ∧ f.mtime < cutoff)) ∧
    (f ∈ dir → cutoff ≤ f.mtime → f ∈ clean_old_files cutoff dir) ∧
    (f ∈ dir → f.name = HISTORY_BASENAME → f ∈ clean_old_files cutoff dir) := by
  have hiff : shouldDelete cutoff f = true ↔
      (f.isRegularFile = true ∧ f.name.head? ≠ some '.' ∧ f.mtime < cutoff) := by
    simp [shouldDelete, and_assoc]
  have hmem : f ∈ clean_old_files cutoff dir ↔
      f ∈ dir ∧ ¬(f.isRegularFile = true ∧ f.name.head? ≠ some '.' ∧ f.mtime < cutoff) := by
    simp only [clean_old_files, List.mem_filter, Bool.not_eq_true']
    constructor
    · rintro ⟨hin, hfalse⟩
      refine ⟨hin, fun hc => ?_⟩
      rw [hiff.mpr hc] at hfalse
      cases hfalse
    · rintro ⟨hin, hnot⟩
      refine ⟨hin, ?_⟩
      cases hb : shouldDelete cutoff f with
      | false => rfl
      | true => exact absurd (hiff.mp hb) hnot
  refine ⟨hmem, ?_, ?_⟩
  · intro hin hnew
    exact hmem.mpr ⟨hin, by rintro ⟨_, _, hold⟩; omega⟩
  · intro hin hname
    refine hmem.mpr ⟨hin, ?_⟩
    rintro ⟨_, hdot, _⟩
    exact hdot (by rw [hname]; rfl)

/-- Witness for C4: the history file, old and regular, survives a sweep. -/
theorem clean_old_files_correct_witness :
    FsFile.mk HISTORY_BASENAME 0 true ∈ [FsFile.mk HISTORY_BASENAME 0 true] ∧
    FsFile.mk HISTORY_BASENAME 0 true ∈
      clean_old_files 1000 [FsFile.mk HISTORY_BASENAME 0 true] :=
  ⟨by decide,
   (clean_old_files_correct 1000 [FsFile.mk HISTORY_BASENAME 0 true]
      (FsFile.mk HISTORY_BASENAME 0 true)).2.2 (by decide) rfl⟩

/-! ## Claim C5: error handling and history effects of POST /download -/

/-- C5. `POST /download` returns 400 for a URL without an http/https scheme
and does so independently of the extraction oracle (extraction is never
consulted); a `DownloadError` yields 400 carrying the tool's message; any
other exception yields 500 carrying the message; in all three failure cases
the history is untouched, and on success exactly one entry is appended
through `add_to_history`. -/
theorem download_media_error_handling (url quality format_type ts idv : List Char)
    (extract : ExtractOutcome) (history : List HistoryEntry) :
    (validUrlScheme url = false →
      download_media url quality format_type ts idv extract history
        = (.httpError 400 "URL must start with http:// or https://".toList, history)) ∧
    (validUrlScheme url = false → ∀ other,
      download_media url quality format_type ts idv other history
        = download_media url quality format_type ts idv extract history) ∧
    (∀ msg, validUrlScheme url = true →
      download_media url quality format_type ts idv (.downloadError msg) history
        = (.httpError 400 ("Download failed: ".toList ++ msg), history)) ∧
    (∀ msg, validUrlScheme url = true →
      download_media url quality format_type ts idv (.otherError msg) history
        = (.httpError 500 ("An unexpected error occurred: ".toList ++ msg), history)) ∧
    (∀ info, validUrlScheme url = true →
      (download_media url quality format_type ts idv (.ok info) history).2
        = add_to_history ts idv (downloadEntryData url format_type info) history) ∧
    ((download_media url quality format_type ts idv extract history).2 ≠ history →
      ∃ info, extract = .ok info ∧
        (download_media url quality format_type ts idv extract history).2
          = add_to_history ts idv (downloadEntryData url format_type info) history ∧
        ∀ status detail, (download_media url quality format_type ts idv extract history).1
          ≠ .httpError status detail) := by
  refine ⟨?_, ?_, ?_, ?_, ?_, ?_⟩
  · intro h
    simp [download_media, h]
  · intro h other
    simp [download_media, h]
  · intro msg h
    simp [download_media, h]
  · intro msg h
    simp [download_media, h]
  · intro info h
    simp [download_media, h]
  · intro hne
    cases hv : validUrlScheme url with
    | false =>
      exact absurd (by simp [download_media, hv]) hne
    | true =>
      cases extract with
      | downloadError msg => exact absurd (by simp [download_media, hv]) hne
      | otherError msg => exact absurd (by simp [download_media, hv]) hne
      | ok info =>
        refine ⟨info, rfl, by simp [download_media, hv], ?_⟩
        intro status detail
        simp [download_media, hv]

/-- Witness for C5 at a rejected URL scheme. -/
theorem download_media_error_handling_witness :
    validUrlScheme "ftp://host/v".toList = false ∧
    download_media "ftp://host/v".toList "best".toList "video".toList [] []
        (.otherError "boom".toList) []
      = (.httpError 400 "URL must start with http:// or https://".toList, []) :=
  ⟨by decide,
   (download_media_error_handling "ftp://host/v".toList "best".toList "video".toList
      [] [] (.otherError "boom".toList) []).1 (by decide)⟩

/-! ## Claim C2: properties of the filename sanitizer -/

theorem mem_collapseAux {p : Char → Bool} {sep c : Char} :
    ∀ (l : List Char) (b : Bool), c ∈ collapseAux p sep b l →
      c = sep ∨ (p c = false ∧ c ∈ l) := by
  intro l
  induction l with
  | nil => intro b h; cases h
  | cons x xs ih =>
    intro b h
    simp only [collapseAux] at h
    by_cases hx : p x = true
    · rw [if_pos hx] at h
      cases b with
      | true =>
        rw [if_pos rfl] at h
        rcases ih true h with h' | ⟨hc, hmem⟩
        · exact Or.inl h'
        · exact Or.inr ⟨hc, List.mem_cons_of_mem _ hmem⟩
      | false =>
        rw [if_neg (by simp)] at h
        rcases List.mem_cons.mp h with h' | h'
        · exact Or.inl h'
        · rcases ih true h' with h'' | ⟨hc, hmem⟩
          · exact Or.inl h''
          · exact Or.inr ⟨hc, List.mem_cons_of_mem _ hmem⟩
    · rw [if_neg hx] at h
      rcases List.mem_cons.mp h with h' | h'
      · subst h'
        exact Or.inr ⟨by simpa using hx, List.mem_cons_self _ _⟩
      · rcases ih false h' with h'' | ⟨hc, hmem⟩
        · exact Or.inl h''
        · exact Or.inr ⟨hc, List.mem_cons_of_mem _ hmem⟩

theorem head_ne_sep_collapseAux {p : Char → Bool} {sep : Char}
    (hsep : ∀ c, p c = true ↔ c = sep) :
    ∀ (l : List Char) (x : Char), (collapseAux p sep true l).head? = some x → x ≠ sep := by
  intro l
  induction l with
  | nil => intro x h; cases h
  | cons c cs ih =>
    intro x h
    simp only [collapseAux] at h
    by_cases hc : p c = true
    · rw [if_pos hc] at h
      rw [if_pos] at h
      · exact ih x h
      · trivial
    · rw [if_neg hc, List.head?_cons] at h
      obtain rfl := Option.some.inj h
      intro hx
      exact hc ((hsep c).mpr hx)

theorem head_collapseAux_false {p : Char → Bool} {sep : Char} (cs : List Char) (y : Char)
    (h : (collapseAux p sep false cs).head? = some y) :
    y = sep ∨ (cs.head? = some y ∧ p y = false) := by
  cases cs with
  | nil => cases h
  | cons d ds =>
    simp only [collapseAux] at h
    by_cases hd : p d = true
    · rw [if_pos hd, if_neg (by simp), List.head?_cons] at h
      exact Or.inl (Option.some.inj h).symm
    · rw [if_neg hd, List.head?_cons] at h
      obtain rfl := Option.some.inj h
      exact Or.inr ⟨rfl, by simpa using hd⟩

theorem chain_collapseAux_self {p : Char → Bool} {sep : Char}
    (hsep : ∀ c, p c = true ↔ c = sep) :
    ∀ (l : List Char) (b : Bool), noTwoAdjacent sep (collapseAux p sep b l) := by
  intro l
  induction l with
  | nil =>
    intro b
    unfold noTwoAdjacent
    simp [collapseAux]
  | cons c cs ih =>
    intro b
    unfold noTwoAdjacent at *
    simp only [collapseAux]
    by_cases hc : p c = true
    · cases b with
      | true =>
        rw [if_pos hc, if_pos rfl]
        exact ih true
      | false =>
        rw [if_pos hc, if_neg (by simp)]
        rw [List.chain'_cons']
        refine ⟨?_, ih true⟩
        intro y hy
        exact Or.inr (head_ne_sep_collapseAux hsep cs y (Option.mem_def.mp hy))
    · rw [if_neg hc]
      rw [List.chain'_cons']
      refine ⟨?_, ih false⟩
      intro y hy
      exact Or.inl (fun hcsep => hc ((hsep c).mpr hcsep))

theorem chain_collapseAux_other {p : Char → Bool} {sep a : Char}
    (hpa : p a = false) (hsa : sep ≠ a) :
    ∀ (l : List Char) (b : Bool), noTwoAdjacent a l →
      noTwoAdjacent a (collapseAux p sep b l) := by
  intro l
  induction l with
  | nil =>
    intro b _
    unfold noTwoAdjacent
    simp [collapseAux]
  | cons c cs ih =>
    intro b hl
    unfold noTwoAdjacent at *
    have htail : cs.Chain' (fun x y => x ≠ a ∨ y ≠ a) := hl.tail
    simp only [collapseAux]
    by_cases hc : p c = true
    · cases b with
      | true =>
        rw [if_pos hc, if_pos rfl]
        exact ih true htail
      | false =>
        rw [if_pos hc, if_neg (by simp)]
        rw [List.chain'_cons']
        exact ⟨fun y _ => Or.inl hsa, ih true htail⟩
    · rw [if_neg hc]
      rw [List.chain'_cons']
      refine ⟨?_, ih false htail⟩
      intro y hy
      by_cases hca : c = a
      · subst hca
        refine Or.inr ?_
        rcases head_collapseAux_false cs y (Option.mem_def.mp hy) with rfl | ⟨hhead, _⟩
        · exact hsa
        · have := (List.chain'_cons'.mp hl).1 y (Option.mem_def.mpr hhead)
          rcases this with h' | h'
          · exact absurd rfl h'
          · exact h'
      · exact Or.inl hca

theorem noTwoAdjacent_reverse {a : Char} {l : List Char}
    (h : noTwoAdjacent a l) : noTwoAdjacent a l.reverse := by
  unfold noTwoAdjacent at *
  rw [List.chain'_reverse]
  exact h.imp (fun x y hxy => hxy.symm)

theorem noTwoAdjacent_pyStrip {a : Char} (q : Char → Bool) {l : List Char}
    (h : noTwoAdjacent a l) : noTwoAdjacent a (pyStrip q l) := by
  unfold pyStrip
  apply noTwoAdjacent_reverse
  have h1 : noTwoAdjacent a (l.dropWhile q) := by
    unfold noTwoAdjacent at *
    exact h.suffix (List.dropWhile_suffix q)
  have h2 := noTwoAdjacent_reverse h1
  unfold noTwoAdjacent at *
  exact h2.suffix (List.dropWhile_suffix q)

theorem pyStrip_subset (q : Char → Bool) (l : List Char) : pyStrip q l ⊆ l := by
  intro c hc
  unfold pyStrip at hc
  rw [List.mem_reverse] at hc
  have h1 := (List.dropWhile_suffix q).subset hc
  rw [List.mem_reverse] at h1
  exact (List.dropWhile_suffix q).subset h1

theorem sanitize_scrubbed_chars (s : List Char) :
    ∀ c ∈ sanitize_scrubbed s,
      isReservedChar c = false ∧ isControlChar c = false ∧ isSpaceChar c = false := by
  intro c hc
  unfold sanitize_scrubbed collapseRuns at hc
  have h5 := pyStrip_subset _ _ hc
  rcases mem_collapseAux _ _ h5 with rfl | ⟨_, h4⟩
  · exact ⟨by decide, by decide, by decide⟩
  · rcases mem_collapseAux _ _ h4 with rfl | ⟨_, h3⟩
    · exact ⟨by decide, by decide, by decide⟩
    · rcases mem_collapseAux _ _ h3 with rfl | ⟨hsp, h2⟩
      · exact ⟨by decide, by decide, by decide⟩
      · rw [List.mem_filter] at h2
        obtain ⟨h1, hctl⟩ := h2
        rw [List.mem_filter] at h1
        obtain ⟨_, hres⟩ := h1
        exact ⟨by simpa using hres, by simpa using hctl, hsp⟩

theorem sanitize_scrubbed_noAdj (s : List Char) :
    noTwoAdjacent '.' (sanitize_scrubbed s) ∧ noTwoAdjacent '_' (sanitize_scrubbed s) := by
  unfold sanitize_scrubbed collapseRuns
  constructor
  · apply noTwoAdjacent_pyStrip
    apply chain_collapseAux_other (by decide) (by decide)
    exact chain_collapseAux_self (fun c => beq_iff_eq) _ _
  · apply noTwoAdjacent_pyStrip
    exact chain_collapseAux_self (fun c => beq_iff_eq) _ _

theorem pySliceTo_subset {α : Type} (l : List α) (k : Int) : pySliceTo l k ⊆ l := by
  unfold pySliceTo
  split <;> exact List.take_subset _ _

theorem splitext_fst_subset (f : List Char) : (splitext f).1 ⊆ f := by
  unfold splitext
  cases hr : rfindIdx '.' f with
  | none => exact fun c hc => hc
  | some i =>
    dsimp only
    split
    · exact List.take_subset _ _
    · exact fun c hc => hc

theorem splitext_snd_subset (f : List Char) : (splitext f).2 ⊆ f := by
  unfold splitext
  cases hr : rfindIdx '.' f with
  | none => intro c hc; cases hc
  | some i =>
    dsimp only
    split
    · exact List.drop_subset _ _
    · intro c hc; cases hc

theorem truncatePy_subset (m : Nat) (f : List Char) : truncatePy m f ⊆ f := by
  unfold truncatePy
  split
  · intro c hc
    rcases List.mem_append.mp hc with h | h
    · exact splitext_fst_subset f (pySliceTo_subset _ _ h)
    · exact splitext_snd_subset f h
  · exact fun c hc => hc

/-- C2 (amended). `sanitize_filename` at the default `max_length = 100`
always returns a non-empty string free of reserved, control and whitespace
characters. When no truncation is needed (the scrubbed name fits in 100
characters) the result also has no adjacent dots or underscores and fits in
100 characters; the length bound holds after truncation as well provided
the extension computed by `splitext` is at most 100 characters, and the
extension is preserved as a suffix whenever truncation occurs. (As stated
the claim fails: an extension longer than `max_length` makes the Python
slice `name[:max_length - len(ext)]` count from the end, so the result can
exceed `max_length`; see the counterexample.) -/
theorem sanitize_filename_spec (s : List Char) :
    sanitize_filename s 100 ≠ [] ∧
    (∀ c ∈ sanitize_filename s 100,
      isReservedChar c = false ∧ isControlChar c = false ∧ isSpaceChar c = false) ∧
    ((sanitize_scrubbed s).length ≤ 100 →
      noTwoAdjacent '.' (sanitize_filename s 100) ∧
      noTwoAdjacent '_' (sanitize_filename s 100) ∧
      (sanitize_filename s 100).length ≤ 100) ∧
    ((splitext (sanitize_scrubbed s)).2.length ≤ 100 →
      (sanitize_filename s 100).length ≤ 100) ∧
    (100 < (sanitize_scrubbed s).length →
      (splitext (sanitize_scrubbed s)).2 <:+ sanitize_filename s 100) := by
  refine ⟨?_, ?_, ?_, ?_, ?_⟩
  · unfold sanitize_filename
    split
    · simp
    · assumption
  · intro c hc
    unfold sanitize_filename at hc
    split at hc
    · exact (by decide : ∀ x ∈ "download".toList,
        isReservedChar x = false ∧ isControlChar x = false ∧ isSpaceChar x = false) c hc
    · exact sanitize_scrubbed_chars s c (truncatePy_subset _ _ hc)
  · intro hlen
    have htr : truncatePy 100 (sanitize_scrubbed s) = sanitize_scrubbed s := by
      unfold truncatePy
      rw [if_neg (by omega)]
    unfold sanitize_filename
    rw [htr]
    split
    · refine ⟨?_, ?_, ?_⟩
      · unfold noTwoAdjacent
        show List.Chain' _ ['d', 'o', 'w', 'n', 'l', 'o', 'a', 'd']
        simp [List.chain'_cons]
      · unfold noTwoAdjacent
        show List.Chain' _ ['d', 'o', 'w', 'n', 'l', 'o', 'a', 'd']
        simp [List.chain'_cons]
      · decide
    · exact ⟨(sanitize_scrubbed_noAdj s).1, (sanitize_scrubbed_noAdj s).2, hlen⟩
  · intro hext
    unfold sanitize_filename
    split
    · decide
    · unfold truncatePy
      split
      · rw [List.length_append]
        unfold pySliceTo
        rw [if_pos (by omega)]
        rw [List.length_take]
        omega
      · omega
  · intro hlong
    by_cases hext0 : (splitext (sanitize_scrubbed s)).2 = []
    · rw [hext0]
      exact List.nil_suffix
    · unfold sanitize_filename
      have htr : truncatePy 100 (sanitize_scrubbed s)
          = pySliceTo (splitext (sanitize_scrubbed s)).1
              (((100 : Nat) : Int) - ((splitext (sanitize_scrubbed s)).2.length : Int))
            ++ (splitext (sanitize_scrubbed s)).2 := by
        unfold truncatePy
        rw [if_pos hlong]
      rw [htr]
      rw [if_neg (by simp [hext0])]
      exact List.suffix_append _ _

/-- Counterexample to C2 as stated: for the 102-character name
`"a." ++ 100 * "b"` the extension computed by `splitext` is 101 characters,
so `name[:100 - 101]` is the negative slice `name[:-1]`, and the sanitized
result is the full 101-character extension — longer than `max_length`. -/
theorem sanitize_filename_length_cex :
    (sanitize_filename ('a' :: '.' :: List.replicate 100 'b') 100).length = 101 ∧
    ¬ (sanitize_filename ('a' :: '.' :: List.replicate 100 'b') 100).length ≤ 100 := by
  constructor <;> decide

/-- Witness for C2 (amended): the conditional clauses instantiated — the
no-truncation clauses at a short name containing whitespace and a dot run,
the truncation clause at a long name. -/
theorem sanitize_filename_spec_witness :
    ((sanitize_scrubbed "a  b..mp4!".toList).length ≤ 100 ∧
     (splitext (sanitize_scrubbed "a  b..mp4!".toList)).2.length ≤ 100 ∧
     100 < (sanitize_scrubbed ('x' :: '.' :: List.replicate 100 'c')).length) ∧
    (noTwoAdjacent '.' (sanitize_filename "a  b..mp4!".toList 100) ∧
     noTwoAdjacent '_' (sanitize_filename "a  b..mp4!".toList 100) ∧
     (sanitize_filename "a  b..mp4!".toList 100).length ≤ 100) ∧
    (sanitize_filename "a  b..mp4!".toList 100).length ≤ 100 ∧
    (splitext (sanitize_scrubbed ('x' :: '.' :: List.replicate 100 'c'))).2 <:+
      sanitize_filename ('x' :: '.' :: List.replicate 100 'c') 100 :=
  ⟨⟨by decide, by decide, by decide⟩,
   (sanitize_filename_spec "a  b..mp4!".toList).2.2.1 (by decide),
   (sanitize_filename_spec "a  b..mp4!".toList).2.2.2.1 (by decide),
   (sanitize_filename_spec ('x' :: '.' :: List.replicate 100 'c')).2.2.2.2 (by decide)⟩

end Downloader
